/-
Verification of the iris ISLISP interpreter core against its specification.

The Go sources embedded here:
  * runtime/ilos/instance/symbol.go   (Symbol, NewSymbol)
  * runtime/ilos/instance/stream.go   (Stream, Stream.String)
  * runtime/ilos/instance (GeneralArrayStar, GetSlotValue, SetSlotValue)
  * runtime/list.go                   (CreateList, Reverse, Nreverse, Mapcar, List)
  * runtime/util.go                   (the cons-chain walking pattern)
and, where the evaluator itself is not part of the excerpt, an evaluator
modelled from the specification (sections 4.2 and 4.3 of the spec).

Machine integers are modelled as Int; Go interface values as an inductive
Instance type; the (value, error-Instance) return convention as Except;
a Go runtime panic (out-of-range index, failed type assertion) as Option.none.
-/
import Mathlib

namespace IrisSpec

/-- Runtime values of the interpreter (the closed built-in variant set of
spec section 3.1 restricted to the classes the embedded functions touch).
`integer` is class integer, `symbol` class symbol, `null` the unique
nil, `cons` class cons; `character` and `float` stand in for the
remaining built-in classes so that non-list, non-integer arguments exist. -/
inductive Instance where
  | integer (n : Int)
  | symbol (s : String)
  | null
  | cons (car cdr : Instance)
  | character (c : Char)
  | float (q : ℚ)
deriving DecidableEq, Repr

/-- Conditions that the embedded library functions can signal
(spec section 7), plus propagation of a condition raised by an applied
function (the error channel of the Go (value, error) pair). -/
inductive Err where
  | domainError
  | arityError
  | raised (c : Instance)
deriving DecidableEq, Repr

/-- NewSymbol from runtime/ilos/instance/symbol.go: a symbol is represented
by its spelling alone (Go type Symbol string). -/
def NewSymbol (n : String) : Instance := Instance.symbol n

/-- InstanceOf class.List: a value is a list when it is a cons or the null
value (spec 3.1 class lattice: list has subclasses cons and null). -/
def isList : Instance → Bool
  | .cons _ _ => true
  | .null => true
  | _ => false

/-- InstanceOf class.Integer. -/
def isInteger : Instance → Bool
  | .integer _ => true
  | _ => false

/-- instance.List.Slice, the cars of the top-level cons chain.
Modelled from the spec: Slice is not part of the excerpt; it walks the
chain exactly as UnsafeListLength in runtime/util.go does (take the car
while the value is a cons, stop at the first non-cons cdr). -/
def Slice : Instance → List Instance
  | .cons a d => a :: Slice d
  | _ => []

/-- instance.List.Nth, the i-th element of the cons chain.
Modelled from the spec: Nth is not part of the excerpt; past the end of
the chain (the first non-cons) it yields nil, the unique null value. -/
def Nth : Instance → Nat → Instance
  | .cons a _, 0 => a
  | .cons _ d, n + 1 => Nth d n
  | _, _ => .null

/-- fromList builds the proper list holding the given elements in order;
it is the value produced by the List function of runtime/list.go. -/
def fromList : List Instance → Instance
  | [] => .null
  | a :: rest => .cons a (fromList rest)

/-- ensure against class list. Modelled from the spec: ensure is not part
of the excerpt; it signals a domain-error (wrong class of argument,
spec section 7) when the object is not an instance of the class. -/
def ensureList (x : Instance) : Except Err Unit :=
  if isList x then .ok () else .error .domainError

/-- Reverse from runtime/list.go: after the class-list check, fold the
slice of the input into a fresh chain of conses, front to back, so the
result is the reverse. -/
def Reverse (list : Instance) : Except Err Instance := do
  ensureList list
  return (Slice list).foldl (fun cons car => .cons car cons) .null

/-- Nreverse from runtime/list.go: its body is the same fold into fresh
conses as Reverse; no cons of the input is written to. -/
def Nreverse (list : Instance) : Except Err Instance := do
  ensureList list
  return (Slice list).foldl (fun cons car => .cons car cons) .null

/-- The loop of CreateList in runtime/list.go: j counts from 0 while
j < i, each iteration consing the initial element onto the front. -/
def createLoop (elm : Instance) : Nat → Instance
  | 0 => .null
  | n + 1 => .cons elm (createLoop elm n)

/-- CreateList from runtime/list.go: ensure the count is an integer
(domain-error otherwise), signal an arity-error when more than one
initial-element is supplied, default the element to nil, then run the
counting loop; `for j := 0; j < int(i); j++` iterates Int.toNat i times
(zero times when i is negative). -/
def CreateList (i : Instance) (initialElement : List Instance) : Except Err Instance :=
  match i with
  | .integer n =>
      if initialElement.length > 1 then .error .arityError
      else
        let elm := initialElement.headD .null
        .ok (createLoop elm n.toNat)
  | _ => .error .domainError

/-- The maximum of the slice lengths of the argument lists, the loop bound
computed by Mapcar in runtime/list.go with math.Max starting from 0. -/
def maxLen (lists : List Instance) : Nat :=
  lists.foldl (fun m l => Nat.max m (Slice l).length) 0

/-- The accumulation loop of Mapcar in runtime/list.go: with k iterations
left at index i, apply the function to the i-th element of every list,
stop on a raised condition, append the value to the accumulator. -/
def mapcarLoop (f : List Instance → Except Err Instance) (lists : List Instance) :
    Nat → Nat → List Instance → Except Err (List Instance)
  | _, 0, acc => .ok acc
  | i, k + 1, acc =>
    match f (lists.map (fun l => Nth l i)) with
    | .error e => .error e
    | .ok r => mapcarLoop f lists (i + 1) k (acc ++ [r])

/-- Mapcar from runtime/list.go: prepend list1 to the remaining lists,
check every argument list is a list (domain-error otherwise; the
function-class check always passes for a Lean function value), compute
the maximum of the lengths, loop over the indices below it, and return
the results as a fresh proper list. -/
def Mapcar (f : List Instance → Except Err Instance) (list1 : Instance)
    (lists : List Instance) : Except Err Instance :=
  let ls := list1 :: lists
  if ls.all isList then
    match mapcarLoop f ls 0 (maxLen ls) [] with
    | .error e => .error e
    | .ok result => .ok (fromList result)
  else .error .domainError

/-- The key-copying loop shared by GetSlotValue and SetSlotValue of
GeneralArrayStar: walk the key chain while it is a cons, writing the car
(type-asserted to an integer) into the fixed [128]int buffer at index
idx. A write at idx ≥ 128 and a type assertion on a non-integer car are
Go runtime panics, modelled as none. -/
def copyIndex : Instance → Nat → List Int → Option (List Int)
  | .cons car cdr, idx, dim =>
    match car with
    | .integer n => if idx < 128 then copyIndex cdr (idx + 1) (dim.set idx n) else none
    | _ => none
  | _, _, dim => some dim

/-- The dimension check of GeneralArrayStar: for each of the 128 slots, a
nonzero declared dimension bounds the requested index strictly. -/
def dimCheckFails (dimension dim : List Int) : Bool :=
  (List.range 128).any fun i => dimension.getD i 0 ≠ 0 && dim.getD i 0 ≥ dimension.getD i 0

/-- GeneralArrayStar from the instance package: a declared dimension
vector of fixed rank 128 and the element table keyed by [128]int index
vectors (the Go map modelled as an association list). -/
structure GeneralArrayStar where
  dimension : List Int
  array : List (List Int × Instance)
deriving DecidableEq, Repr

/-- NewGeneralArrayStar: the declared dimension vector with an empty
element table. -/
def NewGeneralArrayStar (key : List Int) : GeneralArrayStar := ⟨key, []⟩

/-- The LENGTH answer of GeneralArrayStar.GetSlotValue: the proper list of
the nonzero declared dimensions in order (the Go loop prepends from
index 127 down to 0). -/
def lengthList (dims : List Int) : Instance :=
  dims.foldr (fun d acc => if d ≠ 0 then .cons (.integer d) acc else acc) .null

/-- GetSlotValue of GeneralArrayStar: the LENGTH slot first; then, for a
list-shaped key, copy it into the 128-slot buffer, run the dimension
check, and read the element table (a missing key reads the zero value of
the Go map, modelled as Option.none in the first component). The outer
none is a Go runtime panic in the copy. -/
def GeneralArrayStar.GetSlotValue (a : GeneralArrayStar) (key : Instance) :
    Option (Option Instance × Bool) :=
  if key = .symbol "LENGTH" then
    some (some (lengthList a.dimension), true)
  else if isList key then
    match copyIndex key 0 (List.replicate 128 0) with
    | none => none
    | some dim =>
      if dimCheckFails a.dimension dim then some (none, false)
      else some (a.array.lookup dim, true)
  else some (none, false)

/-- SetSlotValue of GeneralArrayStar: for a list-shaped key, copy it into
the 128-slot buffer, run the dimension check, and store the value in the
element table; the boolean is the Go success flag and the outer none a
Go runtime panic in the copy. -/
def GeneralArrayStar.SetSlotValue (a : GeneralArrayStar) (key value : Instance) :
    Option (GeneralArrayStar × Bool) :=
  if isList key then
    match copyIndex key 0 (List.replicate 128 0) with
    | none => none
    | some dim =>
      if dimCheckFails a.dimension dim then some (a, false)
      else some ({ a with array := (dim, value) :: a.array.eraseP (fun p => p.1 = dim) }, true)
  else some (a, false)

/-- The number of conses on the top level of a value, the number of writes
the copy loop performs. -/
def consLen : Instance → Nat
  | .cons _ d => consLen d + 1
  | _ => 0

/-- Every car on the top-level chain is an integer, so that the copy
loop can type-assert every car it writes. -/
def carsAllInt : Instance → Bool
  | .cons (.integer _) d => carsAllInt d
  | .cons _ _ => false
  | _ => true

/-- Stream from runtime/ilos/instance/stream.go. The Reader and Writer
host handles are I/O state invisible to the printed form; the surviving
pure datum is the output column counter. -/
structure Stream where
  column : Int
deriving DecidableEq, Repr

/-- The String method of Stream in runtime/ilos/instance/stream.go:
it returns the literal text of its single return statement. -/
def Stream.toString (_ : Stream) : String := "#<INPUT-STREAM>"

/-- Modelled from the spec: the evaluator (runtime/eval.go) is not part of
the excerpt, only its tests are. Forms and values share one
representation (spec 3.1): integers, symbols, the unique nil, conses,
plus the two callables of spec 4.4 the tests exercise, a closure
(parameters, optional rest parameter, body, captured variable and
function namespaces) and a native function identified by name. The
reader uppercases symbol names, so programs carry uppercase symbols. -/
inductive Val where
  | int (n : Int)
  | sym (s : String)
  | nil
  | cons (a d : Val)
  | closure (ps : List String) (rest : Option String) (body : List Val)
      (cvars cfuncs : List (String × Val))
  | native (name : String)
deriving Repr

/-- Modelled from the spec: control tokens (spec 3.4) carried in the error
slot of the result pair. goto carries the identity of the tagbody frame
that owns the label, thrown the eql-compared catch tag and the value,
cond a condition by class name (Return is not exercised here). -/
inductive Token where
  | goto (id : Nat) (label : String)
  | thrown (tag : Val) (v : Val)
  | cond (name : String)
deriving Repr

/-- Modelled from the spec: the environment frames (spec 3.3) the modelled
forms consult, as innermost-first association lists: the variable and
function namespaces and the tagbody-tag namespace mapping each live
tagbody frame identity to the labels it owns. -/
structure Env where
  vars : List (String × Val)
  funcs : List (String × Val)
  tags : List (Nat × List String)
deriving Repr

/-- Modelled from the spec: eql (spec 3.1) on the atoms the tests compare,
same integer value or same symbol spelling or both nil; the structured
values compare by identity and two distinct evaluation results are
distinct objects here. -/
def eql : Val → Val → Bool
  | .int m, .int n => m == n
  | .sym a, .sym b => a == b
  | .nil, .nil => true
  | _, _ => false

/-- The elements of a form that is a proper list, used to take a special
form apart. -/
def toForms : Val → List Val
  | .cons a d => a :: toForms d
  | _ => []

/-- The proper list holding the given values in order. -/
def fromVals : List Val → Val
  | [] => .nil
  | a :: rest => .cons a (fromVals rest)

/-- Modelled from the spec: the lambda list (spec 4.2), required parameter
symbols optionally followed by a :REST marker and a single rest symbol. -/
def parseParams : List Val → Option (List String × Option String)
  | [] => some ([], none)
  | .sym p :: rest =>
    if p == ":REST" then
      match rest with
      | [.sym r] => some ([], some r)
      | _ => none
    else
      match parseParams rest with
      | some (ps, r) => some (p :: ps, r)
      | none => none
  | _ => none

/-- The labels of a tagbody body: its items that are symbols (spec 4.3,
tagbody: alternating labels and statements). -/
def labelsOf (body : List Val) : List String :=
  body.filterMap fun v =>
    match v with
    | .sym s => some s
    | _ => none

/-- The index of a label symbol in a tagbody body. -/
def labelIndex (body : List Val) (l : String) : Option Nat :=
  match body with
  | [] => none
  | .sym s :: rest => if s == l then some 0 else (labelIndex rest l).map (· + 1)
  | _ :: rest => (labelIndex rest l).map (· + 1)

/-- The innermost tagbody frame owning a label (spec 4.3, go). -/
def findTag (tags : List (Nat × List String)) (l : String) : Option Nat :=
  match tags with
  | [] => none
  | (id, labels) :: rest => if labels.contains l then some id else findTag rest l

/-- Modelled from the spec: the native calling convention (spec 6), a
native function receives the evaluated arguments as a list together
with the environment and yields a value or a control token. The one
native the tests install is INC, add one to the first argument. -/
def applyNative (name : String) (args : Val) (_ : Env) : Except Token Val :=
  match name, args with
  | "INC", .cons (.int n) _ => .ok (.int (n + 1))
  | _, _ => .error (.cond "DOMAIN-ERROR")

mutual

/-- Modelled from the spec: eval(form, env) of spec 4.2 for the forms the
tests exercise. Self-evaluating values return themselves; a symbol is
looked up in the variable namespace; a cons dispatches on its head to
the special-form reducers of spec 4.3 (quote, catch, throw, tagbody,
go, lambda) and otherwise evaluates head and arguments left to right
and applies. The fuel argument bounds recursion depth; the counter
supplies a fresh identity to each tagbody frame entered. -/
def evalF : Nat → Val → Env → Nat → Except Token Val × Nat
  | 0, _, _, ctr => (.error (.cond "FUEL"), ctr)
  | fuel + 1, form, env, ctr =>
    match form with
    | .int n => (.ok (.int n), ctr)
    | .nil => (.ok .nil, ctr)
    | .sym s =>
      match env.vars.lookup s with
      | some v => (.ok v, ctr)
      | none => (.error (.cond "UNBOUND-VARIABLE"), ctr)
    | .cons (.sym "QUOTE") args => (.ok ((toForms args).headD .nil), ctr)
    | .cons (.sym "CATCH") args =>
      match toForms args with
      | [] => (.error (.cond "PROGRAM-ERROR"), ctr)
      | tagExpr :: body =>
        match evalF fuel tagExpr env ctr with
        | (.error t, c) => (.error t, c)
        | (.ok tag, c) =>
          match evalSeq fuel body env c with
          | (.error (.thrown tag2 v), c2) =>
            if eql tag2 tag then (.ok v, c2) else (.error (.thrown tag2 v), c2)
          | r => r
    | .cons (.sym "THROW") args =>
      match toForms args with
      | [tagExpr, valExpr] =>
        match evalF fuel tagExpr env ctr with
        | (.error t, c) => (.error t, c)
        | (.ok tag, c) =>
          match evalF fuel valExpr env c with
          | (.error t, c2) => (.error t, c2)
          | (.ok v, c2) => (.error (.thrown tag v), c2)
      | _ => (.error (.cond "PROGRAM-ERROR"), ctr)
    | .cons (.sym "TAGBODY") args =>
      let body := toForms args
      runTagbody fuel ctr body 0
        { env with tags := (ctr, labelsOf body) :: env.tags } (ctr + 1)
    | .cons (.sym "GO") args =>
      match toForms args with
      | [.sym l] =>
        match findTag env.tags l with
        | some id => (.error (.goto id l), ctr)
        | none => (.error (.cond "CONTROL-ERROR"), ctr)
      | _ => (.error (.cond "PROGRAM-ERROR"), ctr)
    | .cons (.sym "LAMBDA") args =>
      match toForms args with
      | params :: body =>
        match parseParams (toForms params) with
        | some (ps, rest) => (.ok (.closure ps rest body env.vars env.funcs), ctr)
        | none => (.error (.cond "PROGRAM-ERROR"), ctr)
      | [] => (.error (.cond "PROGRAM-ERROR"), ctr)
    | .cons (.sym s) args =>
      match env.funcs.lookup s with
      | none => (.error (.cond "UNDEFINED-FUNCTION"), ctr)
      | some callable =>
        match evalArgs fuel (toForms args) env ctr with
        | (.error t, c) => (.error t, c)
        | (.ok argv, c) => applyV fuel callable argv env c
    | .cons head args =>
      match evalF fuel head env ctr with
      | (.error t, c) => (.error t, c)
      | (.ok callable, c) =>
        match evalArgs fuel (toForms args) env c with
        | (.error t, c2) => (.error t, c2)
        | (.ok argv, c2) => applyV fuel callable argv env c2
    | v => (.ok v, ctr)
termination_by structural fuel _ _ _ => fuel

/-- Modelled from the spec: progn-style body evaluation (spec 4.2 step 3
and 4.3), the forms in order, the last value, nil when empty; a control
token short-circuits. -/
def evalSeq : Nat → List Val → Env → Nat → Except Token Val × Nat
  | 0, _, _, ctr => (.error (.cond "FUEL"), ctr)
  | _ + 1, [], _, ctr => (.ok .nil, ctr)
  | fuel + 1, [f], env, ctr => evalF fuel f env ctr
  | fuel + 1, f :: rest, env, ctr =>
    match evalF fuel f env ctr with
    | (.error t, c) => (.error t, c)
    | (.ok _, c) => evalSeq fuel rest env c
termination_by structural fuel _ _ _ => fuel

/-- Modelled from the spec: argument evaluation is left to right and any
control token produced by an argument short-circuits the remaining
arguments and the call (spec 4.2). -/
def evalArgs : Nat → List Val → Env → Nat → Except Token (List Val) × Nat
  | 0, _, _, ctr => (.error (.cond "FUEL"), ctr)
  | _ + 1, [], _, ctr => (.ok [], ctr)
  | fuel + 1, f :: rest, env, ctr =>
    match evalF fuel f env ctr with
    | (.error t, c) => (.error t, c)
    | (.ok v, c) =>
      match evalArgs fuel rest env c with
      | (.error t, c2) => (.error t, c2)
      | (.ok vs, c2) => (.ok (v :: vs), c2)
termination_by structural fuel _ _ _ => fuel

/-- Modelled from the spec: apply (spec 4.2). A native runs under its
calling convention on the arguments as a proper list. A closure checks
arity, binds required parameters positionally, binds the rest parameter
to the remaining arguments as a proper list (arity-error when arguments
remain and no rest parameter is declared), and evaluates the body in
the captured namespaces. -/
def applyV : Nat → Val → List Val → Env → Nat → Except Token Val × Nat
  | 0, _, _, _, ctr => (.error (.cond "FUEL"), ctr)
  | fuel + 1, callable, args, env, ctr =>
    match callable with
    | .native name => (applyNative name (fromVals args) env, ctr)
    | .closure ps rest body cvars cfuncs =>
      if args.length < ps.length then (.error (.cond "ARITY-ERROR"), ctr)
      else
        let bound := ps.zip args
        let remaining := args.drop ps.length
        match rest with
        | some r => evalSeq fuel body ⟨bound ++ [(r, fromVals remaining)] ++ cvars, cfuncs, []⟩ ctr
        | none =>
          if remaining.isEmpty then evalSeq fuel body ⟨bound ++ cvars, cfuncs, []⟩ ctr
          else (.error (.cond "ARITY-ERROR"), ctr)
    | _ => (.error (.cond "UNDEFINED-FUNCTION"), ctr)
termination_by structural fuel _ _ _ _ => fuel

/-- Modelled from the spec: the tagbody driver (spec 4.3). Walk the body
from the given index, skipping labels and evaluating statements; a goto
token for this frame resumes at the index of its label, a goto for
another tagbody and every other token propagates; falling off the end
yields nil. -/
def runTagbody : Nat → Nat → List Val → Nat → Env → Nat → Except Token Val × Nat
  | 0, _, _, _, _, ctr => (.error (.cond "FUEL"), ctr)
  | fuel + 1, id, body, idx, env, ctr =>
    match body[idx]? with
    | none => (.ok .nil, ctr)
    | some item =>
      match item with
      | .sym _ => runTagbody fuel id body (idx + 1) env ctr
      | stmt =>
        match evalF fuel stmt env ctr with
        | (.ok _, c) => runTagbody fuel id body (idx + 1) env c
        | (.error (.goto id2 l), c) =>
          if id2 == id then
            match labelIndex body l with
            | some j => runTagbody fuel id body j env c
            | none => (.error (.goto id2 l), c)
          else (.error (.goto id2 l), c)
        | (.error t, c) => (.error t, c)
termination_by structural fuel _ _ _ _ _ => fuel

end

/-- Evaluation of a whole program in a given environment, with fuel well
beyond what the test programs need. -/
def evalTop (form : Val) (env : Env) : Except Token Val :=
  (evalF 100 form env 0).1

/-- The empty environment. -/
def env0 : Env := ⟨[], [], []⟩

/-- The proper-list form builder, mirroring how the reader produces the
test programs. -/
def Lform (items : List Val) : Val := fromVals items

/-- The reader expansion of a quoted datum, (quote x). -/
def quoteForm (v : Val) : Val := Lform [.sym "QUOTE", v]

/-- The test program (catch (quote foo) 1 (throw (quote foo) 1)) as the
reader produces it. -/
def progC2 : Val := Lform [.sym "CATCH", quoteForm (.sym "FOO"), .int 1,
  Lform [.sym "THROW", quoteForm (.sym "FOO"), .int 1]]

/-- The nested-tagbody test program
(catch (quote foo)
  (tagbody (tagbody (go bar) (throw (quote foo) 1) bar (go foobar)) foobar)). -/
def progC1 : Val := Lform [.sym "CATCH", quoteForm (.sym "FOO"),
  Lform [.sym "TAGBODY",
    Lform [.sym "TAGBODY",
      Lform [.sym "GO", .sym "BAR"],
      Lform [.sym "THROW", quoteForm (.sym "FOO"), .int 1],
      .sym "BAR",
      Lform [.sym "GO", .sym "FOOBAR"]],
    .sym "FOOBAR"]]

/-- A nested-tagbody program whose two tagbodies own the same label L:
(catch (quote foo) (tagbody l (tagbody (go l) (throw (quote foo) 1) l))).
Only when the go targets the innermost L does it skip the throw and fall
off the end; targeting the outer L would re-enter the inner tagbody
forever. -/
def progC1b : Val := Lform [.sym "CATCH", quoteForm (.sym "FOO"),
  Lform [.sym "TAGBODY",
    .sym "L",
    Lform [.sym "TAGBODY",
      Lform [.sym "GO", .sym "L"],
      Lform [.sym "THROW", quoteForm (.sym "FOO"), .int 1],
      .sym "L"]]]

/-- The test program ((lambda (x)) 1), a one-parameter lambda with an
empty body applied to one argument. -/
def progC3a : Val := Lform [Lform [.sym "LAMBDA", Lform [.sym "X"]], .int 1]

/-- The test program ((lambda (:rest xs) xs) 1 2). -/
def progC3b : Val :=
  Lform [Lform [.sym "LAMBDA", Lform [.sym ":REST", .sym "XS"], .sym "XS"], .int 1, .int 2]

/-- The test environment whose function namespace binds INC to the native
add-one function. -/
def envInc : Env := ⟨[], [("INC", .native "INC")], []⟩

/-- The test program (inc (inc 1)). -/
def progC7 : Val := Lform [.sym "INC", Lform [.sym "INC", .int 1]]

/-- The proper list of conses built by foldr, the spine a fold of Reverse
produces sits on top of its accumulator. -/
def consAll (xs : List Instance) (tail : Instance) : Instance :=
  xs.foldr .cons tail

/-- A concrete function for exercising Mapcar: wrap the received argument
tuple as a proper list. -/
def listF (args : List Instance) : Except Err Instance := .ok (fromList args)

/-- The maximum of the argument-list lengths as the claim words it, for
comparison with the running maximum the source folds up: the largest of
the lengths, zero for none. -/
def specMax (ls : List Instance) : Nat :=
  (ls.map (fun l => (Slice l).length)).foldr Nat.max 0

/-- The Mapcar iteration as the claim words it, for comparison with the
accumulator loop of the source: one application per index i (k indices
remain), to the tuple of i-th elements, the results collected in call
order, the first raised condition propagated. -/
def mapcarRefLoop (f : List Instance → Except Err Instance) (ls : List Instance) :
    Nat → Nat → Except Err (List Instance)
  | _, 0 => .ok []
  | i, k + 1 =>
    match f (ls.map (fun l => Nth l i)) with
    | .error e => .error e
    | .ok r =>
      match mapcarRefLoop f ls (i + 1) k with
      | .error e => .error e
      | .ok rest => .ok (r :: rest)

/-- C1: nested tagbodies do not collide: the sample program whose inner go
must reach the innermost owner of its label evaluates to nil (skipping
the throw), and so does a program in which both tagbodies own the same
label and only the innermost-targeting reading terminates. -/
theorem eval_nested_tagbody :
    evalTop progC1 env0 = .ok .nil ∧ evalTop progC1b env0 = .ok .nil :=
  ⟨rfl, rfl⟩

/-- C2: catch installs a frame keyed by the evaluated tag and absorbs a
throw whose tag is eql to it: (catch (quote foo) 1 (throw (quote foo) 1))
evaluates to the thrown value 1 with no error. -/
theorem eval_catch_throw : evalTop progC2 env0 = .ok (.int 1) :=
  rfl

/-- C3: applying a lambda evaluates the body in order with nil for an
empty body, and a :rest parameter receives the remaining arguments as a
proper list: ((lambda (x)) 1) gives nil and ((lambda (:rest xs) xs) 1 2)
gives the list (1 2). -/
theorem eval_lambda_forms :
    evalTop progC3a env0 = .ok .nil ∧
    evalTop progC3b env0 = .ok (fromVals [.int 1, .int 2]) :=
  ⟨rfl, rfl⟩

/-- C7: with INC bound in the function namespace to the native add-one
function, (inc (inc 1)) evaluates to 3 under the native calling
convention. -/
theorem eval_native_inc : evalTop progC7 envInc = .ok (.int 3) :=
  rfl

/-- C5 counterexample: a concrete stream whose String method does not
return the text the claim requires. -/
theorem stream_string_counterexample : Stream.toString ⟨0⟩ ≠ "#<stream>" := by
  decide

/-- C5 amended: the String method of every Stream instance returns exactly
the text of its return statement, #<INPUT-STREAM>. -/
theorem stream_string_canonical : ∀ s : Stream, s.toString = "#<INPUT-STREAM>" :=
  fun _ => rfl

/-- C6: symbols are interned: NewSymbol s and NewSymbol t are the same
value exactly when the spellings coincide, because a symbol is its
spelling. -/
theorem newSymbol_interned : ∀ s t : String, NewSymbol s = NewSymbol t ↔ s = t := by
  intro s t
  constructor
  · intro h
    exact Instance.symbol.inj h
  · intro h
    rw [h]

/-- The slice of the proper list built from xs is xs itself. -/
theorem slice_fromList (xs : List Instance) : Slice (fromList xs) = xs := by
  induction xs with
  | nil => rfl
  | cons a rest ih => simp [fromList, Slice, ih]

/-- Stacking conses for an appended list stacks the two parts in turn. -/
theorem consAll_append (xs ys : List Instance) (t : Instance) :
    consAll (xs ++ ys) t = consAll xs (consAll ys t) := by
  simp [consAll]

/-- The fold of Reverse piles the elements, reversed, on the accumulator. -/
theorem foldl_cons_eq_consAll (xs : List Instance) (acc : Instance) :
    xs.foldl (fun cons car => Instance.cons car cons) acc = consAll xs.reverse acc := by
  induction xs generalizing acc with
  | nil => rfl
  | cons a rest ih =>
    rw [List.foldl_cons, ih, List.reverse_cons, consAll_append]
    rfl

/-- Piling conses on nil is exactly fromList. -/
theorem consAll_null_eq_fromList (xs : List Instance) : consAll xs .null = fromList xs := by
  induction xs with
  | nil => rfl
  | cons a rest ih => simp [consAll, fromList] at ih ⊢; exact ih

/-- C8: Reverse and Nreverse agree on every input; on the proper list of
xs both yield the freshly consed proper list of xs reversed; and on a
value that is not a list both signal a domain-error. Both embedded
bodies build the result purely from new conses, writing to no cons of
the input. -/
theorem reverse_nreverse_equiv :
    (∀ x : Instance, Reverse x = Nreverse x) ∧
    (∀ xs : List Instance, Reverse (fromList xs) = .ok (fromList xs.reverse)) ∧
    ∀ x : Instance, isList x = false →
      Reverse x = .error .domainError ∧ Nreverse x = .error .domainError := by
  refine ⟨fun x => rfl, fun xs => ?_, fun x hx => ?_⟩
  · have hl : isList (fromList xs) = true := by
      cases xs <;> simp [fromList, isList]
    simp [Reverse, ensureList, hl, slice_fromList, foldl_cons_eq_consAll,
      consAll_null_eq_fromList]
  · constructor <;> simp [Reverse, Nreverse, ensureList, hx]

/-- C8 witness: a concrete non-list input on which both functions signal
the domain-error, alongside the other two parts at concrete inputs. -/
theorem reverse_nreverse_equiv_witness :
    isList (Instance.integer 5) = false ∧
    Reverse (Instance.integer 5) = .error .domainError ∧
    Nreverse (Instance.integer 5) = .error .domainError :=
  ⟨by decide, (reverse_nreverse_equiv.2.2 (Instance.integer 5) (by decide)).1,
    (reverse_nreverse_equiv.2.2 (Instance.integer 5) (by decide)).2⟩

/-- The counting loop of CreateList builds the proper list repeating the
element n times. -/
theorem createLoop_replicate (elm : Instance) (n : Nat) :
    createLoop elm n = fromList (List.replicate n elm) := by
  induction n with
  | zero => rfl
  | succ k ih => simp [createLoop, List.replicate, fromList, ih]

/-- C9: for an integer count with at most one initial-element, CreateList
returns without signaling the proper list of toNat n copies of the
element (nil when absent), hence the empty list and no domain-error for
a negative count; more than one initial-element signals an arity-error. -/
theorem createList_spec (n : Int) (init : List Instance) :
    (init.length ≤ 1 → 0 ≤ n →
      CreateList (.integer n) init =
        .ok (fromList (List.replicate n.toNat (init.headD .null)))) ∧
    (init.length ≤ 1 → n < 0 → CreateList (.integer n) init = .ok .null) ∧
    (1 < init.length → CreateList (.integer n) init = .error .arityError) := by
  refine ⟨fun h1 _ => ?_, fun h1 h2 => ?_, fun h => ?_⟩
  · have h3 : ¬ init.length > 1 := by omega
    simp [CreateList, h3, createLoop_replicate]
  · have h3 : ¬ init.length > 1 := by omega
    have h4 : n.toNat = 0 := by omega
    simp [CreateList, h3, h4, createLoop]
  · simp [CreateList, h]

/-- C9 witness: the three behaviors at concrete inputs: count 2 with one
initial element, count -3 with none, and two initial elements. -/
theorem createList_spec_witness :
    CreateList (.integer 2) [Instance.symbol "A"] =
      .ok (fromList (List.replicate (2 : Int).toNat
        (([Instance.symbol "A"]).headD .null))) ∧
    CreateList (.integer (-3)) [] = .ok .null ∧
    CreateList (.integer 1) [Instance.null, Instance.null] = .error .arityError :=
  ⟨(createList_spec 2 [Instance.symbol "A"]).1 (by decide) (by decide),
    (createList_spec (-3) []).2.1 (by decide) (by decide),
    (createList_spec 1 [Instance.null, Instance.null]).2.2 (by decide)⟩

/-- When every car on the key chain is an integer and the chain has at
most 128 - idx conses left, every write of the copy loop lands below
index 128 and the copy completes without a panic. -/
theorem copyIndex_ne_none :
    ∀ (key : Instance) (idx : Nat) (dim : List Int),
      carsAllInt key = true → idx + consLen key ≤ 128 →
      copyIndex key idx dim ≠ none := by
  intro key
  induction key with
  | cons car cdr _ ihd =>
    intro idx dim h1 h2
    cases car with
    | integer n =>
      simp only [carsAllInt] at h1
      simp only [consLen] at h2
      have hidx : idx < 128 := by omega
      simp only [copyIndex, hidx, if_true]
      exact ihd (idx + 1) (dim.set idx n) h1 (by omega)
    | symbol s => simp [carsAllInt] at h1
    | null => simp [carsAllInt] at h1
    | cons u v => simp [carsAllInt] at h1
    | character c => simp [carsAllInt] at h1
    | float q => simp [carsAllInt] at h1
  | integer n => intro idx dim _ _; simp [copyIndex]
  | symbol s => intro idx dim _ _; simp [copyIndex]
  | null => intro idx dim _ _; simp [copyIndex]
  | character c => intro idx dim _ _; simp [copyIndex]
  | float q => intro idx dim _ _; simp [copyIndex]

/-- C4 counterexample: an integer index list of length 129 drives the
copy loop to a write at buffer index 128, a Go out-of-range panic, in
both GetSlotValue and SetSlotValue of a concrete GeneralArrayStar. -/
theorem generalArrayStar_overflow :
    GeneralArrayStar.GetSlotValue (NewGeneralArrayStar (List.replicate 128 0))
      (fromList (List.replicate 129 (Instance.integer 0))) = none ∧
    GeneralArrayStar.SetSlotValue (NewGeneralArrayStar (List.replicate 128 0))
      (fromList (List.replicate 129 (Instance.integer 0))) Instance.null = none := by
  exact ⟨by decide, by decide⟩

/-- C4 amended: the copy into the fixed 128-slot buffer is in bounds, and
GetSlotValue and SetSlotValue complete without a panic, whenever the
integer index key carries at most 128 conses; index lists of length 129
or more overflow the buffer instead. -/
theorem generalArrayStar_safe (a : GeneralArrayStar) (key value : Instance) :
    carsAllInt key = true → consLen key ≤ 128 →
    a.GetSlotValue key ≠ none ∧ a.SetSlotValue key value ≠ none := by
  intro h1 h2
  have hc := copyIndex_ne_none key 0 (List.replicate 128 0) h1 (by omega)
  constructor
  · unfold GeneralArrayStar.GetSlotValue
    split
    · simp
    · split
      · cases hcc : copyIndex key 0 (List.replicate 128 0) with
        | none => exact absurd hcc hc
        | some dim =>
          dsimp only
          split <;> simp
      · simp
  · unfold GeneralArrayStar.SetSlotValue
    split
    · cases hcc : copyIndex key 0 (List.replicate 128 0) with
      | none => exact absurd hcc hc
      | some dim =>
        dsimp only
        split <;> simp
    · simp

/-- C4 witness: a rank-2 integer key on a concrete array, on which both
operations complete. -/
theorem generalArrayStar_safe_witness :
    carsAllInt (fromList [Instance.integer 1, Instance.integer 2]) = true ∧
    consLen (fromList [Instance.integer 1, Instance.integer 2]) ≤ 128 ∧
    (NewGeneralArrayStar (List.replicate 128 0)).GetSlotValue
      (fromList [Instance.integer 1, Instance.integer 2]) ≠ none ∧
    (NewGeneralArrayStar (List.replicate 128 0)).SetSlotValue
      (fromList [Instance.integer 1, Instance.integer 2]) Instance.null ≠ none :=
  ⟨by decide, by decide,
    generalArrayStar_safe (NewGeneralArrayStar (List.replicate 128 0))
      (fromList [Instance.integer 1, Instance.integer 2]) Instance.null
      (by decide) (by decide)⟩

/-- The map over a cons extends the overall maximum by one more length. -/
theorem specMax_cons (x : Instance) (rest : List Instance) :
    specMax (x :: rest) = Nat.max (Slice x).length (specMax rest) := rfl

/-- The running maximum the source folds up equals the initial value
joined with the overall maximum of the claim. -/
theorem foldl_max_eq (ls : List Instance) :
    ∀ a : Nat, ls.foldl (fun m l => Nat.max m (Slice l).length) a = Nat.max a (specMax ls) := by
  induction ls with
  | nil => intro a; exact (Nat.max_zero a).symm
  | cons x rest ih =>
    intro a
    rw [List.foldl_cons, ih, specMax_cons]
    exact Nat.max_assoc a (Slice x).length (specMax rest)

/-- The loop bound of Mapcar is the overall maximum of the lengths. -/
theorem maxLen_eq_specMax (ls : List Instance) : maxLen ls = specMax ls := by
  show ls.foldl (fun m l => Nat.max m (Slice l).length) 0 = specMax ls
  rw [foldl_max_eq]
  exact Nat.zero_max (specMax ls)

/-- Every argument-list length is at most the overall maximum. -/
theorem specMax_le (ls : List Instance) : ∀ l ∈ ls, (Slice l).length ≤ specMax ls := by
  induction ls with
  | nil => intro l hl; cases hl
  | cons x rest ih =>
    intro l hl
    rw [specMax_cons]
    rcases List.mem_cons.mp hl with h | h
    · rw [h]; exact Nat.le_max_left _ _
    · exact le_trans (ih l h) (Nat.le_max_right _ _)

/-- The overall maximum is zero or the length of one of the lists. -/
theorem specMax_attained (ls : List Instance) :
    specMax ls = 0 ∨ ∃ l ∈ ls, (Slice l).length = specMax ls := by
  induction ls with
  | nil => left; rfl
  | cons x rest ih =>
    rw [specMax_cons]
    rcases Nat.le_total (specMax rest) (Slice x).length with hle | hle
    · right
      exact ⟨x, List.mem_cons_self x rest, (Nat.max_eq_left hle).symm⟩
    · rcases ih with h0 | ⟨l, hl, he⟩
      · left
        have hx0 : (Slice x).length = 0 := by omega
        rw [h0, hx0]
        rfl
      · right
        exact ⟨l, List.mem_cons_of_mem x hl, he.trans (Nat.max_eq_right hle).symm⟩

/-- The accumulator loop of the source equals the direct collection of
the claim, with the pending accumulator in front. -/
theorem mapcarLoop_eq_ref (f : List Instance → Except Err Instance) (ls : List Instance) :
    ∀ (k i : Nat) (acc : List Instance),
      mapcarLoop f ls i k acc = (mapcarRefLoop f ls i k).map (acc ++ ·) := by
  intro k
  induction k with
  | zero => intro i acc; simp [mapcarLoop, mapcarRefLoop, Except.map]
  | succ m ih =>
    intro i acc
    simp only [mapcarLoop, mapcarRefLoop]
    cases hf : f (ls.map (fun l => Nth l i)) with
    | error e => simp [Except.map]
    | ok r =>
      dsimp only
      rw [ih]
      cases hrest : mapcarRefLoop f ls (i + 1) m with
      | error e => simp [Except.map]
      | ok xs => simp [Except.map]

/-- C10: for every function and argument lists all of class list, Mapcar
performs one application per index from 0 up to the maximum, not the
minimum, of the argument-list lengths, on the tuple of i-th elements
each time, and returns the results in call order: it coincides with the
direct reading mapcarRefLoop run over specMax indices, every length is
at most specMax, and specMax is attained unless it is zero. -/
theorem mapcar_spec (f : List Instance → Except Err Instance) (list1 : Instance)
    (lists : List Instance) (h : (list1 :: lists).all isList = true) :
    Mapcar f list1 lists =
      (mapcarRefLoop f (list1 :: lists) 0 (specMax (list1 :: lists))).map fromList ∧
    (∀ l ∈ list1 :: lists, (Slice l).length ≤ specMax (list1 :: lists)) ∧
    (specMax (list1 :: lists) = 0 ∨
      ∃ l ∈ list1 :: lists, (Slice l).length = specMax (list1 :: lists)) := by
  refine ⟨?_, specMax_le _, specMax_attained _⟩
  unfold Mapcar
  simp only [h, if_true, maxLen_eq_specMax, mapcarLoop_eq_ref]
  cases hr : mapcarRefLoop f (list1 :: lists) 0 (specMax (list1 :: lists)) with
  | error e => simp [Except.map]
  | ok xs => simp [Except.map]

/-- C10 witness: two concrete lists of lengths one and two; the wrapped
call agrees with the direct reading over the maximum, two indices. -/
theorem mapcar_spec_witness :
    ((fromList [Instance.integer 1] ::
        [fromList [Instance.integer 10, Instance.integer 20]]).all isList = true) ∧
    Mapcar listF (fromList [Instance.integer 1])
        [fromList [Instance.integer 10, Instance.integer 20]] =
      (mapcarRefLoop listF
        (fromList [Instance.integer 1] ::
          [fromList [Instance.integer 10, Instance.integer 20]]) 0
        (specMax (fromList [Instance.integer 1] ::
          [fromList [Instance.integer 10, Instance.integer 20]]))).map fromList :=
  ⟨by decide,
    (mapcar_spec listF (fromList [Instance.integer 1])
      [fromList [Instance.integer 10, Instance.integer 20]] (by decide)).1⟩

end IrisSpec
